import Mathlib

/-!
# Verification of the desktop-scout inspection core

A shallow embedding, in Lean 4, of the core of the `desktop-scout` tool:
descriptor-file parsing (`src/desktop.rs`), executable resolution and the
script-argument heuristic (`src/check.rs`), and the directory walk and
concurrent inspection pipeline (`src/scan.rs`).

Strings are modelled as `List Char` (named `Str` below) so that every
definition evaluates by kernel reduction on concrete inputs.  The
filesystem is modelled abstractly: a metadata oracle (existence,
regular-file flag, Unix permission bits), a file-read oracle that can
fail with an error message, and a directory-listing oracle.  All
definitions follow the Rust source; definitions that instead follow the
specification text (for refinement comparisons) carry a `Spec` suffix
and say so in their doc comment.
-/

namespace DScout

/-- Model of strings: a list of characters, so that all operations reduce. -/
abbrev Str := List Char

/-- Coerce a Lean string literal into the model representation. -/
def str (s : String) : Str := s.toList

/-- Whether the string contains the character `c` (Rust `str::contains(char)`). -/
def chContains (s : Str) (c : Char) : Bool := s.any (· = c)

/-- Whether the first character of `s` is `c` (Rust `str::starts_with(char)`). -/
def headIs (s : Str) (c : Char) : Bool :=
  match s with
  | [] => false
  | x :: _ => x = c

/-- ASCII whitespace, the fragment of Rust `char::is_whitespace` relevant here. -/
def isWs (c : Char) : Bool := c = ' ' || c = '\t' || c = '\n' || c = '\r'

/-- Rust `str::trim`: remove leading and trailing whitespace. -/
def trimStr (s : Str) : Str :=
  ((s.dropWhile isWs).reverse.dropWhile isWs).reverse

/-- Rust `char::to_ascii_lowercase`. -/
def lowerCh (c : Char) : Char :=
  if 'A' ≤ c && c ≤ 'Z' then Char.ofNat (c.toNat + 32) else c

/-- Rust `str::to_ascii_lowercase`. -/
def toLowerStr (s : Str) : Str := s.map lowerCh

/-- Rust `str::split(c)`: split at every occurrence of `c`, keeping empty pieces. -/
def splitCh (c : Char) : Str → List Str
  | [] => [[]]
  | x :: xs =>
    let r := splitCh c xs
    if x = c then [] :: r
    else
      match r with
      | [] => [[x]]
      | h :: t => (x :: h) :: t

/-- Rust `str::split_once(c)`: split at the first occurrence of `c`, or `none`. -/
def splitOnceCh (c : Char) : Str → Option (Str × Str)
  | [] => none
  | x :: xs =>
    if x = c then some ([], xs)
    else
      match splitOnceCh c xs with
      | none => none
      | some (a, b) => some (x :: a, b)

/-- Drop one trailing carriage return, as Rust `str::lines` does per line. -/
def stripCr (s : Str) : Str :=
  match s.getLast? with
  | some '\r' => s.dropLast
  | _ => s

/-- Rust `str::lines`: split on newline, dropping one trailing empty piece
(so a trailing newline does not yield an extra empty line) and stripping a
trailing carriage return from each line. -/
def rustLines (s : Str) : List Str :=
  let parts := splitCh '\n' s
  let parts := if parts.getLast? = some [] then parts.dropLast else parts
  parts.map stripCr

/-- Unix `Path::is_absolute`: the path starts with a separator. -/
def isAbsolute (p : Str) : Bool := headIs p '/'

/-- Rust `Path::join(base, p)`: an absolute `p` replaces `base`; otherwise
`p` is appended, inserting a separator when needed. -/
def joinPath (base p : Str) : Str :=
  if isAbsolute p then p
  else if base = [] then p
  else if base.getLast? = some '/' then base ++ p
  else base ++ '/' :: p

/-- Path components after normalisation: separators split the path and
empty and `.` components vanish (the fragment of Rust `Path::components`
needed for `file_name` and `extension`). -/
def pathComponents (p : Str) : List Str :=
  (splitCh '/' p).filter (fun c => c ≠ [] && c ≠ str ".")

/-- Rust `Path::file_name`: the last normalised component, unless the path is
empty or ends in a parent-directory component. -/
def fileName (p : Str) : Option Str :=
  match (pathComponents p).getLast? with
  | none => none
  | some c => if c = str ".." then none else some c

/-- Rust `Path::extension`: the part of the file name after the last dot,
except that a name with no dot, or whose only dot is leading, has none. -/
def extensionOf (p : Str) : Option Str :=
  match fileName p with
  | none => none
  | some b =>
    match splitCh '.' b with
    | [] => none
    | [_] => none
    | [stem, ext] => if stem = [] then none else some ext
    | parts => parts.getLast?

/-! ## `src/desktop.rs`: minimal `.desktop` parsing helpers -/

/-- The per-line state step of `parse_desktop_entry_section`: the state is the
in-section flag together with the key-value mapping accumulated so far
(a `HashMap` in the source, modelled as a lookup function with
overwrite-on-insert semantics). -/
def parseStep (st : Bool × (Str → Option Str)) (raw : Str) : Bool × (Str → Option Str) :=
  let line := trimStr raw
  if line = [] || headIs line '#' || headIs line ';' then st
  else if headIs line '[' && line.getLast? = some ']' then
    (line = str "[Desktop Entry]", st.2)
  else if !st.1 then st
  else
    match splitOnceCh '=' line with
    | some (k, v) =>
      (st.1, fun q => if q = trimStr k then some (trimStr v) else st.2 q)
    | none => st

/-- `desktop::parse_desktop_entry_section`: fold the step over the lines of the
content, starting outside any section with an empty map. -/
def parse_desktop_entry_section (content : Str) : Str → Option Str :=
  ((rustLines content).foldl parseStep (false, fun _ => none)).2

/-- `desktop::parse_bool`: trim, lowercase (ASCII), and compare against the
accepted truthy spellings. -/
def parse_bool (v : Option Str) : Bool :=
  match v.map (fun s => toLowerStr (trimStr s)) with
  | some s => s = str "true" || s = str "1" || s = str "yes"
  | none => false

/-- The skipping loop inside `extract_executable_from_tokens`: after an `env`
head token, advance past tokens that start with `-` or contain `=`, and
return the first other token (or `none` when the list runs out). -/
def skipEnvMods : List Str → Option Str
  | [] => none
  | t :: ts =>
    if headIs t '-' || chContains t '=' then skipEnvMods ts else some t

/-- `desktop::extract_executable_from_tokens`: the first token, except that an
initial literal `env` causes option flags and assignments to be skipped. -/
def extract_executable_from_tokens (tokens : List Str) : Option Str :=
  match tokens with
  | [] => none
  | t :: ts => if t = str "env" then skipEnvMods ts else some t

/-- Specification-side restatement of the claim about token extraction
(§4.1 of the spec): first token; after `env`, the first token that is
neither an option flag nor an assignment; `none` on the empty list.
Written with `dropWhile`, to be compared with the source-side recursion. -/
def extractTokenSpec (tokens : List Str) : Option Str :=
  match tokens with
  | [] => none
  | t :: ts =>
    if t = str "env" then
      (ts.dropWhile (fun u => headIs u '-' || chContains u '=')).head?
    else some t

/-- Result of a successful `fs::metadata` call: whether the path is a regular
file, and its Unix permission mode bits. -/
structure FileMeta where
  isFile : Bool
  mode : Nat
  deriving DecidableEq

/-- Abstract filesystem: a metadata oracle (`none` models a failing
`fs::metadata`, e.g. a missing path) and a whole-file read oracle
(`Except.error` models a failing `fs::read_to_string`, carrying the error
message). -/
structure FS where
  meta : Str → Option FileMeta
  readFile : Str → Except Str Str

/-- `check::is_executable_file`: metadata exists, is a regular file, and the
mode has at least one of the `0o111` execute bits. -/
def is_executable_file (fs : FS) (p : Str) : Bool :=
  match fs.meta p with
  | none => false
  | some md => md.isFile && (md.mode &&& 0o111 != 0)

/-- `check::which_in_path`: walk the non-empty colon-delimited entries of the
search path in order and return the first join that is an executable file. -/
def which_in_path (fs : FS) (cmd path_env : Str) : Option Str :=
  List.findSome?
    (fun dir =>
      let candidate := joinPath dir cmd
      if is_executable_file fs candidate then some candidate else none)
    ((splitCh ':' path_env).filter (fun s => s ≠ []))

/-- `check::resolve_executable`.  The Rust function returns
`Result<Option<PathBuf>>` but never errors, so it is modelled as the
`Option` directly: a token with a separator is a path (absolute tested
directly; relative joined to the working directory when one exists,
otherwise unresolved), and a bare token is searched in the path. -/
def resolve_executable (fs : FS) (token path_env : Str) (path_key : Option Str) :
    Option Str :=
  if chContains token '/' then
    if isAbsolute token then
      if is_executable_file fs token then some token else none
    else
      match path_key with
      | some wd =>
        let candidate := joinPath wd token
        if is_executable_file fs candidate then some candidate else none
      | none => none
  else which_in_path fs token path_env

/-- `check::validate_tryexec` is exactly resolution of the raw value. -/
def validate_tryexec (fs : FS) (try_exec path_env : Str) (path_key : Option Str) :
    Option Str :=
  resolve_executable fs try_exec path_env path_key

/-- Specification-side executable-file test (§4.2 of the spec): the path
exists, is a regular file, and has at least one of the owner, group or
other execute permission bits (`0o100`, `0o010`, `0o001`) set. -/
def execFileTestSpec (fs : FS) (p : Str) : Bool :=
  match fs.meta p with
  | none => false
  | some md =>
    md.isFile &&
      (md.mode &&& 0o100 != 0 || md.mode &&& 0o010 != 0 || md.mode &&& 0o001 != 0)

/-- Specification-side restatement of the resolution procedure (§4.2 of the
spec), written from the claim's words with the three-bit executable test,
to be compared with `resolve_executable`. -/
def resolveSpec (fs : FS) (token path_env : Str) (wd : Option Str) : Option Str :=
  if chContains token '/' then
    if isAbsolute token then
      if execFileTestSpec fs token then some token else none
    else
      match wd with
      | some w =>
        let candidate := joinPath w token
        if execFileTestSpec fs candidate then some candidate else none
      | none => none
  else
    List.findSome?
      (fun dir =>
        let candidate := joinPath dir token
        if execFileTestSpec fs candidate then some candidate else none)
      ((splitCh ':' path_env).filter (fun s => s ≠ []))

/-- The closed set of interpreter file names recognised by the heuristic. -/
def interpreterNames : List Str :=
  [str "python", str "python3", str "node", str "bash", str "sh", str "ruby", str "perl"]

/-- The skipping loop of `heuristic_script_missing`: the first token that does
not start with `%` or `-` (or `none` when the list runs out). -/
def firstNonOption : List Str → Option Str
  | [] => none
  | t :: ts => if headIs t '%' || headIs t '-' then firstNonOption ts else some t

/-- `check::heuristic_script_missing`.  The Rust function returns
`Result<Option<String>>` but never errors, so it is modelled as the
`Option` of the problem message directly. -/
def heuristic_script_missing (fs : FS) (resolved_exe : Str) (tokens : List Str)
    (path_key : Option Str) : Option Str :=
  let exe_name := toLowerStr ((fileName resolved_exe).getD [])
  let is_interpreter := interpreterNames.contains exe_name
  if !is_interpreter || tokens.isEmpty then none
  else
    match firstNonOption (tokens.drop 1) with
    | none => none
    | some arg =>
      if !chContains arg '/' then none
      else
        let cand : Option Str :=
          if isAbsolute arg then some arg
          else
            match path_key with
            | some wd => some (joinPath wd arg)
            | none => none
        match cand with
        | none => none
        | some candidate =>
          if (fs.meta candidate).isNone then
            some (str "Interpreter " ++ exe_name ++
              str " exists, but script/path argument is missing: " ++ candidate)
          else none

/-- The single-quote character, by code point. -/
def quoteCh : Char := Char.ofNat 39

/-- The double-quote character, by code point. -/
def dquoteCh : Char := Char.ofNat 34

/-- The backquote character, by code point. -/
def bquoteCh : Char := Char.ofNat 96

/-- The dollar character. -/
def dollarCh : Char := '$'

/-- Shell word-splitting whitespace: space, tab, newline. -/
def isShellWs (c : Char) : Bool := c = ' ' || c = '\t' || c = '\n'

/-- Quoting state of the word splitter. -/
inductive QuoteMode where
  | normal
  | single
  | double

/-- Modelled from the spec: the POSIX-shell word splitter that `validate_exec`
delegates to (an external library whose code is not part of this
repository).  Whitespace separates words; single quotes quote literally;
double quotes quote, with backslash escaping the dollar, backquote,
double-quote and backslash characters and deleting an escaped newline;
outside quotes a backslash escapes the next character (deleting an escaped
newline); an unterminated quote or a trailing backslash is a tokenizer
failure (`none`). -/
def shlexGo (cs : List Char) (m : QuoteMode) (cur : List Char) (inW : Bool)
    (acc : List Str) : Option (List Str) :=
  match cs, m with
  | [], .normal => some (if inW then acc ++ [cur] else acc)
  | [], _ => none
  | c :: rest, .single =>
    if c = quoteCh then shlexGo rest .normal cur true acc
    else shlexGo rest .single (cur ++ [c]) true acc
  | c :: rest, .double =>
    if c = dquoteCh then shlexGo rest .normal cur true acc
    else if c = '\\' then
      match rest with
      | [] => none
      | d :: rest2 =>
        if d = dollarCh || d = bquoteCh || d = dquoteCh || d = '\\' then
          shlexGo rest2 .double (cur ++ [d]) true acc
        else if d = '\n' then shlexGo rest2 .double cur true acc
        else shlexGo rest2 .double (cur ++ ['\\', d]) true acc
    else shlexGo rest .double (cur ++ [c]) true acc
  | c :: rest, .normal =>
    if isShellWs c then
      if inW then shlexGo rest .normal [] false (acc ++ [cur])
      else shlexGo rest .normal [] false acc
    else if c = quoteCh then shlexGo rest .single cur true acc
    else if c = dquoteCh then shlexGo rest .double cur true acc
    else if c = '\\' then
      match rest with
      | [] => none
      | d :: rest2 =>
        if d = '\n' then shlexGo rest2 .normal cur true acc
        else shlexGo rest2 .normal (cur ++ [d]) true acc
    else shlexGo rest .normal (cur ++ [c]) true acc

/-- Modelled from the spec: shell word-splitting of a whole line, `none` on a
tokenizer failure. -/
def shlexSplit (s : Str) : Option (List Str) :=
  shlexGo s .normal [] false []

/-- The context threaded through Exec/TryExec validation
(`check::CheckContext`). -/
structure CheckContext where
  path_env : Str
  path_key : Option Str
  check_script_args : Bool

/-- `check::validate_exec`: shell-split the line, extract the executable
token, treat a field-code token as no executable, resolve, and optionally
run the script heuristic on a resolved executable. -/
def validate_exec (fs : FS) (exec_line : Str) (ctx : CheckContext) :
    Except Str (Option Str) :=
  match shlexSplit exec_line with
  | none => Except.error (str "Failed to shell-split Exec")
  | some tokens =>
    match extract_executable_from_tokens tokens with
    | none => Except.error (str "Could not extract executable from Exec")
    | some extracted =>
      if headIs extracted '%' then Except.ok none
      else if ctx.check_script_args then
        match resolve_executable fs extracted ctx.path_env ctx.path_key with
        | some rexe =>
          match heuristic_script_missing fs rexe tokens ctx.path_key with
          | some reason => Except.error reason
          | none => Except.ok (some rexe)
        | none => Except.ok none
      else Except.ok (resolve_executable fs extracted ctx.path_env ctx.path_key)

/-- Whether an `Except` result is an error. -/
def exceptIsError {ε α : Type} : Except ε α → Bool
  | Except.error _ => true
  | Except.ok _ => false

/-- A filesystem for the C4 counterexample: the interpreter
`/usr/bin/python3` is an executable regular file, and `/opt/s.py` exists
but is a regular file with no execute permission bit (mode `0o644`). -/
def fsC4 : FS where
  meta := fun p =>
    if p = str "/usr/bin/python3" then some ⟨true, 0o755⟩
    else if p = str "/opt/s.py" then some ⟨true, 0o644⟩
    else none
  readFile := fun _ => Except.error (str "io error")

/-- Restatement of the amended C4 claim: the heuristic applies only to the
fixed interpreter set (by lowercased file name); it skips `%`- and
`-`-prefixed tokens after the interpreter token and examines the first
remaining one; a separator-containing argument yields a candidate path
(absolute as-is, relative joined to the working directory, relative with
no working directory silently skipped); a problem is reported iff no
filesystem metadata exists at the candidate — a bare existence test,
weaker than the §4.2 executable-file test. -/
def heuristicSpec (fs : FS) (resolved_exe : Str) (tokens : List Str)
    (wd : Option Str) : Option Str :=
  let exe := toLowerStr ((fileName resolved_exe).getD [])
  if interpreterNames.contains exe then
    match ((tokens.drop 1).dropWhile (fun t => headIs t '%' || headIs t '-')).head? with
    | none => none
    | some arg =>
      if chContains arg '/' then
        match (if isAbsolute arg then some arg else wd.map (fun w => joinPath w arg)) with
        | some candidate =>
          if fs.meta candidate = none then
            some (str "Interpreter " ++ exe ++
              str " exists, but script/path argument is missing: " ++ candidate)
          else none
        | none => none
      else none
  else none

/-- A filesystem and context for the C6 witness. -/
def fsC6 : FS where
  meta := fun _ => none
  readFile := fun _ => Except.error (str "io error")

/-- A context for the C6 witness. -/
def ctxC6 : CheckContext where
  path_env := str "/bin"
  path_key := none
  check_script_args := true

/-- The four kinds of line the descriptor parser distinguishes: ignorable
(blank or comment), a section header (recording whether it is exactly
`[Desktop Entry]`), a key-value line, and anything else. -/
inductive LineKind where
  | blank
  | header (isDE : Bool)
  | kv (k v : Str)
  | other

/-- Classify one trimmed line the way `parse_desktop_entry_section` does. -/
def classifyLine (raw : Str) : LineKind :=
  let line := trimStr raw
  if line = [] || headIs line '#' || headIs line ';' then LineKind.blank
  else if headIs line '[' && line.getLast? = some ']' then
    LineKind.header (line = str "[Desktop Entry]")
  else
    match splitOnceCh '=' line with
    | some (k, v) => LineKind.kv (trimStr k) (trimStr v)
    | none => LineKind.other

/-- `parseStep` re-expressed through `classifyLine` (proved equal below). -/
def parseStepC (st : Bool × (Str → Option Str)) (raw : Str) :
    Bool × (Str → Option Str) :=
  match classifyLine raw with
  | LineKind.blank => st
  | LineKind.header b => (b, st.2)
  | LineKind.kv k v =>
    if st.1 then (st.1, fun q => if q = k then some v else st.2 q) else st
  | LineKind.other => st

/-- Specification-side step: collect, in order, the key-value pairs of the
lines that lie inside a region opened by a `[Desktop Entry]` header. -/
def activeStep (st : Bool × List (Str × Str)) (raw : Str) :
    Bool × List (Str × Str) :=
  match classifyLine raw with
  | LineKind.blank => st
  | LineKind.header b => (b, st.2)
  | LineKind.kv k v => if st.1 then (st.1, st.2 ++ [(k, v)]) else st
  | LineKind.other => st

/-- Specification-side: the ordered key-value pairs of every
`[Desktop Entry]` region of the content. -/
def desktopEntryPairs (content : Str) : List (Str × Str) :=
  ((rustLines content).foldl activeStep (false, [])).2

/-- Last-write-wins lookup over an ordered pair list. -/
def lastWriteWins (pairs : List (Str × Str)) (k : Str) : Option Str :=
  pairs.foldl (fun acc p => if p.1 = k then some p.2 else acc) none

/-- A descriptor text with two `[Desktop Entry]` sections separated by an
`[Other]` section, for the C5 counterexample. -/
def contentC5 : Str :=
  str "[Desktop Entry]\nA=1\n[Other]\nX=2\n[Desktop Entry]\nB=3\nA=4"

/-! ## `src/report.rs` and `src/args.rs`: findings and configuration -/

/-- `report::Status`: outcome of inspecting one descriptor file. -/
inductive Status where
  | ok (resolved_executable : Option Str)
  | broken (reason : Str)
  | skipped (reason : Str)
  deriving DecidableEq

/-- `report::Finding`: the terminal record for one descriptor file. -/
structure Finding where
  desktop_file : Str
  name : Option Str
  exec : Option Str
  try_exec : Option Str
  path_key : Option Str
  hidden : Bool
  no_display : Bool
  status : Status
  deriving DecidableEq

/-- The fields of `args::Args` consumed by the inspection core. -/
structure Args where
  include_hidden : Bool
  check_script_args : Bool
  jobs : Option Nat
  deriving DecidableEq

/-! ## `src/scan.rs`: per-file inspection -/

/-- The body of `scan::inspect_one` after the file has been read and parsed:
skip rules, the bus-activation case, and TryExec/Exec validation, taking
the parsed key-value mapping `kv`. -/
def inspect_fields (fs : FS) (path : Str) (path_env : Str) (args : Args)
    (kv : Str → Option Str) : Finding :=
  let name := kv (str "Name")
  let exec := kv (str "Exec")
  let try_exec := kv (str "TryExec")
  let hidden := parse_bool (kv (str "Hidden"))
  let no_display := parse_bool (kv (str "NoDisplay"))
  let typ := (kv (str "Type")).map trimStr
  let dbus_activatable := parse_bool (kv (str "DBusActivatable"))
  let path_key := kv (str "Path")
  let base := fun (st : Status) =>
    { desktop_file := path, name := name, exec := exec, try_exec := try_exec,
      path_key := path_key, hidden := hidden, no_display := no_display,
      status := st : Finding }
  if !args.include_hidden && (hidden || no_display) then
    base (Status.skipped
      (str "Hidden=true or NoDisplay=true (use --include-hidden to scan these)"))
  else if (match typ with
           | some t => decide (t ≠ str "Application")
           | none => false) then
    base (Status.skipped
      (str "Type=" ++ ((typ).getD []) ++ str " (only Type=Application is checked)"))
  else if dbus_activatable && exec.isNone then
    base (Status.ok none)
  else
    let ctx : CheckContext :=
      { path_env := path_env, path_key := path_key,
        check_script_args := args.check_script_args }
    match try_exec with
    | some tx =>
      match validate_tryexec fs tx ctx.path_env ctx.path_key with
      | some resolved_tx =>
        match exec with
        | some exec_line =>
          match validate_exec fs exec_line ctx with
          | Except.ok (some resolved_exec) => base (Status.ok (some resolved_exec))
          | Except.ok none =>
            base (Status.broken (str "Exec does not resolve (even though TryExec does)"))
          | Except.error e => base (Status.broken (str "Exec check failed: " ++ e))
        | none => base (Status.ok (some resolved_tx))
      | none => base (Status.broken (str "TryExec does not resolve: " ++ tx))
    | none =>
      match exec with
      | some exec_line =>
        match validate_exec fs exec_line ctx with
        | Except.ok (some resolved) => base (Status.ok (some resolved))
        | Except.ok none => base (Status.broken (str "Exec does not resolve"))
        | Except.error e => base (Status.broken (str "Exec check failed: " ++ e))
      | none => base (Status.broken (str "No Exec key found (and not DBusActivatable)"))

/-- `scan::inspect_one`: read the file (propagating a read failure as the
only error source, as the `?` on `read_to_string` does), parse the
`[Desktop Entry]` section, then run the field logic. -/
def inspect_one (fs : FS) (path : Str) (path_env : Str) (args : Args) :
    Except Str Finding :=
  match fs.readFile path with
  | Except.error e => Except.error e
  | Except.ok content =>
    Except.ok (inspect_fields fs path path_env args
      (parse_desktop_entry_section content))

/-- The catch-all finding `inspect_files_concurrently` builds when
`inspect_one` returns an error. -/
def brokenReadFinding (path : Str) (e : Str) : Finding :=
  { desktop_file := path, name := none, exec := none, try_exec := none,
    path_key := none, hidden := false, no_display := false,
    status := Status.broken (str "Failed to read/parse file: " ++ e) }

/-- The per-file task body of `scan::inspect_files_concurrently`: run
`inspect_one` and convert a per-file error into a `Broken` finding.  The
Rust function evaluates these bodies under a semaphore with
`buffer_unordered` (modelled separately as a transition system below) and
collects the results in completion order — a permutation of mapping the
body over the input list; the search-path string is read from the process
environment there and is a parameter here. -/
def inspectCaught (fs : FS) (path : Str) (args : Args) (path_env : Str) : Finding :=
  match inspect_one fs path path_env args with
  | Except.ok f => f
  | Except.error e => brokenReadFinding path e

/-- The full pipeline maps `inspectCaught` over the input file list. -/
def inspect_files_concurrently (fs : FS) (files : List Str) (args : Args)
    (path_env : Str) : List Finding :=
  files.map (fun path => inspectCaught fs path args path_env)

/-- A filesystem on which every file read fails, for the C1 counterexample. -/
def fsC1 : FS where
  meta := fun _ => none
  readFile := fun _ => Except.error (str "permission denied")

/-- The duplicated input path of the C1 counterexample. -/
def pathC1 : Str := str "/apps/x.desktop"

/-- Default arguments for concrete runs. -/
def argsDefault : Args where
  include_hidden := false
  check_script_args := false
  jobs := none

/-- A filesystem for the C2 witness: `/bin/sh` is an executable regular
file, `/nonexistent/prog` is absent. -/
def fsC2 : FS where
  meta := fun p => if p = str "/bin/sh" then some ⟨true, 0o755⟩ else none
  readFile := fun _ => Except.error (str "io error")

/-- Descriptor fields for the C2 witness: `TryExec=/bin/sh` (resolves) and
`Exec=/nonexistent/prog %f` (does not resolve). -/
def kvC2 : Str → Option Str := fun q =>
  if q = str "TryExec" then some (str "/bin/sh")
  else if q = str "Exec" then some (str "/nonexistent/prog %f")
  else none

/-- Descriptor fields for the C10 witness: bus-activatable, no `Exec`, and
a `TryExec` that resolves to nothing. -/
def kvC10 : Str → Option Str := fun q =>
  if q = str "TryExec" then some (str "/nonexistent")
  else if q = str "DBusActivatable" then some (str "true")
  else none

/-! ## `src/scan.rs`: the directory walker -/

/-- The file type reported by `DirEntry::file_type` (which does not follow
symbolic links): symlink, directory, regular file, or anything else. -/
inductive FileType where
  | symlink
  | dir
  | file
  | other
  deriving DecidableEq

/-- One directory entry: its name and the result of its `file_type()` call
(`none` models a failing call, which the walker skips). -/
structure DirEntry where
  name : Str
  ftype : Option FileType
  deriving DecidableEq

/-- Abstract directory oracle for the walker: `read_dir` returns `none` for a
missing/unreadable directory, and otherwise the stream of `next_entry`
results, where a `none` element models an `Err` from `next_entry` (the
walker stops reading that directory there). -/
structure DirFS where
  read_dir : Str → Option (List (Option DirEntry))

/-- The entries actually iterated: the prefix of the stream before the first
`next_entry` error. -/
def takeOkEntries : List (Option DirEntry) → List DirEntry
  | [] => []
  | none :: _ => []
  | some e :: rest => e :: takeOkEntries rest

/-- The subdirectories pushed while processing one directory: entries whose
(non-followed) file type is a directory, joined to the parent.  Symlinks
fall into the catch-all and are never pushed. -/
def entrySubdirs (dir : Str) (ents : List DirEntry) : List Str :=
  ents.filterMap (fun e =>
    match e.ftype with
    | some FileType.dir => some (joinPath dir e.name)
    | _ => none)

/-- The files collected while processing one directory: entries whose file
type is a regular file and whose joined path has extension exactly
`desktop`.  Symlinks fall into the catch-all and are never collected. -/
def entryFiles (dir : Str) (ents : List DirEntry) : List Str :=
  ents.filterMap (fun e =>
    match e.ftype with
    | some FileType.file =>
      if extensionOf (joinPath dir e.name) = some (str "desktop") then
        some (joinPath dir e.name)
      else none
    | _ => none)

/-- The `while let Some(dir) = stack.pop()` loop of `collect_desktop_files`.
The stack's top is the list head (the Rust code pushes discovered
subdirectories at the end of a vector and pops from the end, so the
subdirectories of the processed directory are prepended in reverse).
`fuel` bounds the iteration: the Rust loop terminates because a real
filesystem without symlink traversal is a finite tree, while this
abstract oracle could contain directory cycles; every theorem below holds
for every fuel value. -/
def walkLoop (fs : DirFS) : Nat → List Str → List Str → List Str
  | 0, _, out => out
  | _ + 1, [], out => out
  | fuel + 1, dir :: stack, out =>
    match fs.read_dir dir with
    | none => walkLoop fs fuel stack out
    | some rawEnts =>
      walkLoop fs fuel
        ((entrySubdirs dir (takeOkEntries rawEnts)).reverse ++ stack)
        (out ++ entryFiles dir (takeOkEntries rawEnts))

/-- The same loop, instrumented to record which directories are listed
instead of which files are collected (same recursion structure as
`walkLoop`): used to state that only roots and dir-typed entries are ever
traversed. -/
def walkVisited (fs : DirFS) : Nat → List Str → List Str → List Str
  | 0, _, vis => vis
  | _ + 1, [], vis => vis
  | fuel + 1, dir :: stack, vis =>
    match fs.read_dir dir with
    | none => walkVisited fs fuel stack (vis ++ [dir])
    | some rawEnts =>
      walkVisited fs fuel
        ((entrySubdirs dir (takeOkEntries rawEnts)).reverse ++ stack)
        (vis ++ [dir])

/-- Byte-lexicographic order on path strings (Rust `PathBuf` ordering,
restricted to the character level). -/
def lexLe : Str → Str → Bool
  | [], _ => true
  | _ :: _, [] => false
  | a :: as, b :: bs => if a = b then lexLe as bs else decide (a < b)

/-- Insert into a `lexLe`-sorted list, keeping it sorted. -/
def insertSorted (x : Str) : List Str → List Str
  | [] => [x]
  | y :: ys => if lexLe x y then x :: y :: ys else y :: insertSorted x ys

/-- Rust `Vec::sort` on paths, modelled as insertion sort by the
byte-lexicographic order (same stable ascending result). -/
def sortStr : List Str → List Str
  | [] => []
  | x :: xs => insertSorted x (sortStr xs)

/-- Rust `Vec::dedup`: remove consecutive duplicates. -/
def dedupAdjacent : List Str → List Str
  | [] => []
  | [a] => [a]
  | a :: b :: rest =>
    if a = b then dedupAdjacent (b :: rest) else a :: dedupAdjacent (b :: rest)

/-- `scan::collect_desktop_files`: walk each root in turn accumulating into
one output vector, then sort and dedup. -/
def collect_desktop_files (fs : DirFS) (fuel : Nat) (dirs : List Str) : List Str :=
  dedupAdjacent (sortStr (dirs.foldl (fun acc root => walkLoop fs fuel [root] acc) []))

/-- A collected path's provenance: it is the join of a directory the oracle
lists and an entry of regular-file type whose joined path has the
`desktop` extension. -/
def fileProvenance (fs : DirFS) (p : Str) : Prop :=
  ∃ d rawEnts e, fs.read_dir d = some rawEnts ∧ e ∈ takeOkEntries rawEnts
    ∧ e.ftype = some FileType.file
    ∧ extensionOf (joinPath d e.name) = some (str "desktop")
    ∧ p = joinPath d e.name

/-- A traversed directory's provenance: it is the join of a listed directory
and an entry of directory type (in particular never a symlink entry). -/
def dirProvenance (fs : DirFS) (p : Str) : Prop :=
  ∃ d rawEnts e, fs.read_dir d = some rawEnts ∧ e ∈ takeOkEntries rawEnts
    ∧ e.ftype = some FileType.dir ∧ p = joinPath d e.name

/-- A concrete directory oracle for the C7 witness: `/apps` holds a
subdirectory, a symlink, a `.desktop` file and an extensionless file;
`/apps/sub` holds one more `.desktop` file; everything else is
unreadable. -/
def fsC7 : DirFS where
  read_dir := fun d =>
    if d = str "/apps" then
      some [some ⟨str "sub", some FileType.dir⟩,
            some ⟨str "link", some FileType.symlink⟩,
            some ⟨str "a.desktop", some FileType.file⟩,
            some ⟨str "noext", some FileType.file⟩]
    else if d = str "/apps/sub" then
      some [some ⟨str "b.desktop", some FileType.file⟩]
    else none

/-! ## `src/scan.rs`: the concurrency gate -/

/-- The effective job count of `inspect_files_concurrently`:
`args.jobs.unwrap_or_else(|| num_cpus::get().saturating_mul(4).max(8))`,
with the machine's CPU count a parameter. -/
def effectiveJobs (args : Args) (cpus : Nat) : Nat :=
  args.jobs.getD (max (cpus * 4) 8)

/-- State of the semaphore-gated task pool: how many per-file inspections
have not started, are in flight, and are finished, plus the free permits
of the semaphore. -/
structure GateState where
  pending : Nat
  running : Nat
  done : Nat
  permits : Nat
  deriving DecidableEq

/-- One scheduler step of the gated pool of `inspect_files_concurrently`:
`start` models `sem.acquire()` succeeding inside a task — possible only
while a permit is free — after which the task reads and inspects its
file; `finish` models the task producing its Finding (both arms of the
`match` produce one, so every exit path finishes) and dropping its
`_permit`, which returns the permit to the semaphore. -/
inductive GateStep : GateState → GateState → Prop where
  | start (s : GateState) (hp : 0 < s.pending) (hm : 0 < s.permits) :
      GateStep s ⟨s.pending - 1, s.running + 1, s.done, s.permits - 1⟩
  | finish (s : GateState) (hr : 0 < s.running) :
      GateStep s ⟨s.pending, s.running - 1, s.done + 1, s.permits + 1⟩

/-- Reachability from the initial state of a run: `total` pending tasks,
none running or done, and `N` free permits (`Semaphore::new(jobs)`). -/
inductive GateReachable (N total : Nat) : GateState → Prop where
  | init : GateReachable N total ⟨total, 0, 0, N⟩
  | step {s s2 : GateState} : GateReachable N total s → GateStep s s2 →
      GateReachable N total s2

/-! ## Theorems -/

theorem skipEnvMods_eq_dropWhile (ts : List Str) :
    skipEnvMods ts = (ts.dropWhile (fun u => headIs u '-' || chContains u '=')).head? := by
  induction ts with
  | nil => rfl
  | cons t ts ih =>
    by_cases h : (headIs t '-' || chContains t '=') = true
    · simp [skipEnvMods, List.dropWhile, h, ih]
    · simp [skipEnvMods, List.dropWhile, h]

/-- C8: `extract_executable_from_tokens` returns the first token, except that
after a literal first token `env` it skips leading option flags and
assignment tokens and returns the first token after those; the empty
token list yields `none`.  In particular
`["env","FOO=1","-i","myapp","--flag"]` yields `myapp` and
`["myapp","arg"]` yields `myapp`. -/
theorem C8_extract_executable_token :
    (∀ tokens : List Str, extract_executable_from_tokens tokens = extractTokenSpec tokens)
    ∧ extract_executable_from_tokens
        [str "env", str "FOO=1", str "-i", str "myapp", str "--flag"] = some (str "myapp")
    ∧ extract_executable_from_tokens [str "myapp", str "arg"] = some (str "myapp")
    ∧ extract_executable_from_tokens [] = none := by
  refine ⟨?_, by decide, by decide, rfl⟩
  intro tokens
  cases tokens with
  | nil => rfl
  | cons t ts =>
    simp only [extract_executable_from_tokens, extractTokenSpec]
    by_cases h : t = str "env"
    · simp [h, skipEnvMods_eq_dropWhile]
    · simp [h]

/-! ## Filesystem model and `src/check.rs`: executable resolution -/

theorem ne_zero_iff_exists_testBit (n : Nat) :
    n ≠ 0 ↔ ∃ i, n.testBit i = true := by
  constructor
  · intro h
    by_contra hc
    push_neg at hc
    exact h (Nat.eq_of_testBit_eq fun i => by
      simp [Nat.zero_testBit]
      exact Bool.eq_false_iff.mpr fun ht => (hc i) ht)
  · rintro ⟨i, hi⟩ h
    subst h
    simp [Nat.zero_testBit] at hi

theorem land_ne_zero_iff (m n : Nat) :
    (m &&& n ≠ 0) ↔ ∃ i, m.testBit i = true ∧ n.testBit i = true := by
  rw [ne_zero_iff_exists_testBit]
  constructor
  · rintro ⟨i, hi⟩
    rw [Nat.testBit_land, Bool.and_eq_true] at hi
    exact ⟨i, hi⟩
  · rintro ⟨i, h1, h2⟩
    exact ⟨i, by rw [Nat.testBit_land, h1, h2]; rfl⟩

theorem testBit_73 (i : Nat) :
    Nat.testBit 73 i = true ↔ i = 0 ∨ i = 3 ∨ i = 6 := by
  constructor
  · intro h
    by_cases hi : i < 7
    · interval_cases i <;> revert h <;> decide
    · exfalso
      have : Nat.testBit 73 i = false :=
        Nat.testBit_lt_two_pow (by calc (73 : Nat) < 2 ^ 7 := by norm_num
                                    _ ≤ 2 ^ i := Nat.pow_le_pow_right (by norm_num) (by omega))
      rw [this] at h
      exact Bool.false_ne_true h
  · rintro (rfl | rfl | rfl) <;> decide

theorem mode_exec_bits (m : Nat) :
    (m &&& 0o111 != 0) =
      (m &&& 0o100 != 0 || m &&& 0o010 != 0 || m &&& 0o001 != 0) := by
  have h73 : (m &&& 73 ≠ 0) ↔ m.testBit 6 = true ∨ m.testBit 3 = true ∨ m.testBit 0 = true := by
    rw [land_ne_zero_iff]
    constructor
    · rintro ⟨i, h1, h2⟩
      rcases (testBit_73 i).mp h2 with rfl | rfl | rfl
      · exact Or.inr (Or.inr h1)
      · exact Or.inr (Or.inl h1)
      · exact Or.inl h1
    · rintro (h | h | h)
      · exact ⟨6, h, by decide⟩
      · exact ⟨3, h, by decide⟩
      · exact ⟨0, h, by decide⟩
  have hpow : ∀ k : Nat, (m &&& 2 ^ k ≠ 0) ↔ m.testBit k = true := by
    intro k
    rw [land_ne_zero_iff]
    constructor
    · rintro ⟨i, h1, h2⟩
      rw [Nat.testBit_two_pow] at h2
      rcases h2 with h2
      simpa [← (by exact_mod_cast of_decide_eq_true h2 : k = i)] using h1
    · intro h
      exact ⟨k, h, by simp [Nat.testBit_two_pow]⟩
  have e64 : (m &&& 64 ≠ 0) ↔ m.testBit 6 = true := hpow 6
  have e8 : (m &&& 8 ≠ 0) ↔ m.testBit 3 = true := hpow 3
  have e1 : (m &&& 1 ≠ 0) ↔ m.testBit 0 = true := hpow 0
  rw [Bool.eq_iff_iff]
  simp only [bne_iff_ne, Bool.or_eq_true]
  rw [h73, e64, e8, e1]
  tauto

theorem is_executable_file_eq_spec (fs : FS) (p : Str) :
    is_executable_file fs p = execFileTestSpec fs p := by
  unfold is_executable_file execFileTestSpec
  cases fs.meta p with
  | none => rfl
  | some md =>
    dsimp only
    rw [mode_exec_bits]

/-- C3: `resolve_executable` coincides, on every filesystem, token, search
path and optional working directory, with the specification's ordered
decision procedure: separator-containing tokens are paths (absolute
tested directly for existence, regular-file-ness and an owner/group/other
execute bit; relative joined to the working directory when present;
relative with no working directory unresolved), and bare tokens are
searched through the non-empty colon-delimited search-path entries in
order, taking the first executable join. -/
theorem C3_resolve_executable (fs : FS) (token path_env : Str) (wd : Option Str) :
    resolve_executable fs token path_env wd = resolveSpec fs token path_env wd := by
  unfold resolve_executable resolveSpec which_in_path
  simp only [is_executable_file_eq_spec]

/-! ## `src/check.rs`: script-argument heuristic and Exec validation -/

/-- C4, counterexample.  The claim says the script argument "is resolved the
same way as a relative/absolute path token per §4.2 rule 1 ... and a
problem is reported iff that resolution yields nothing".  Here the
resolved executable is the interpreter `python3` and the script argument
`/opt/s.py` exists as a regular file with no execute bit, so the §4.2
rule-1 resolution yields nothing — yet `heuristic_script_missing` reports
no problem, because the code only tests that `fs::metadata` succeeds. -/
theorem C4_counterexample :
    heuristic_script_missing fsC4 (str "/usr/bin/python3")
        [str "python3", str "/opt/s.py"] none = none
    ∧ resolve_executable fsC4 (str "/opt/s.py") (str "") none = none := by
  decide

theorem firstNonOption_eq_dropWhile (ts : List Str) :
    firstNonOption ts = (ts.dropWhile (fun t => headIs t '%' || headIs t '-')).head? := by
  induction ts with
  | nil => rfl
  | cons t ts ih =>
    by_cases h : (headIs t '%' || headIs t '-') = true
    · simp [firstNonOption, List.dropWhile, h, ih]
    · simp [firstNonOption, List.dropWhile, h]

/-- C4, amended: `heuristic_script_missing` coincides with the amended
specification `heuristicSpec` on every input — in particular it never
flags a non-interpreter executable or a non-path-like argument, and it
flags a path-like script argument iff the candidate path has no
filesystem metadata at all (mere existence, not §4.2 executability). -/
theorem C4_heuristic_script_missing (fs : FS) (resolved_exe : Str)
    (tokens : List Str) (wd : Option Str) :
    heuristic_script_missing fs resolved_exe tokens wd =
      heuristicSpec fs resolved_exe tokens wd := by
  unfold heuristic_script_missing heuristicSpec
  by_cases hI : interpreterNames.contains (toLowerStr ((fileName resolved_exe).getD [])) = true
  · simp only [hI, if_true, Bool.not_true, Bool.false_or]
    cases tokens with
    | nil => simp [List.isEmpty]
    | cons t ts =>
      simp only [List.isEmpty, if_false, List.drop_succ_cons, List.drop_zero]
      rw [firstNonOption_eq_dropWhile]
      cases harg : (ts.dropWhile (fun t => headIs t '%' || headIs t '-')).head? with
      | none => rfl
      | some arg =>
        by_cases hsep : chContains arg '/' = true
        · simp only [hsep, Bool.not_true, if_false, if_true]
          by_cases habs : isAbsolute arg = true
          · simp only [habs, if_true]
            cases hmeta : fs.meta arg <;> simp [Option.isNone, hmeta]
          · simp only [eq_false_of_ne_true habs, if_false]
            cases wd with
            | none => rfl
            | some w =>
              cases hmeta : fs.meta (joinPath w arg) <;>
                simp [Option.isNone, Option.map, hmeta]
        · simp [eq_false_of_ne_true hsep]
  · have hI' : interpreterNames.contains (toLowerStr ((fileName resolved_exe).getD [])) = false :=
      eq_false_of_ne_true hI
    simp only [hI']
    simp

/-- C6: `validate_exec` errors exactly when shell-tokenization fails, when
the executable-token extraction yields nothing, or when the script
heuristic is enabled and reports a problem on the resolved executable;
whenever the extracted token starts with `%` the result is `Ok(None)`
without error; in particular `validate_exec "%f"` is `Ok(None)`. -/
theorem C6_validate_exec (fs : FS) (line : Str) (ctx : CheckContext) :
    (exceptIsError (validate_exec fs line ctx) = true ↔
      shlexSplit line = none
      ∨ (∃ toks, shlexSplit line = some toks
          ∧ extract_executable_from_tokens toks = none)
      ∨ (∃ toks ext rexe reason, shlexSplit line = some toks
          ∧ extract_executable_from_tokens toks = some ext
          ∧ headIs ext '%' = false
          ∧ ctx.check_script_args = true
          ∧ resolve_executable fs ext ctx.path_env ctx.path_key = some rexe
          ∧ heuristic_script_missing fs rexe toks ctx.path_key = some reason))
    ∧ (∀ toks ext, shlexSplit line = some toks →
        extract_executable_from_tokens toks = some ext →
        headIs ext '%' = true →
        validate_exec fs line ctx = Except.ok none)
    ∧ validate_exec fs (str "%f") ctx = Except.ok none := by
  refine ⟨?_, ?_, rfl⟩
  · unfold validate_exec
    cases hs : shlexSplit line with
    | none =>
      dsimp only
      simp only [exceptIsError]
      exact ⟨fun _ => Or.inl trivial, fun _ => trivial⟩
    | some toks =>
      dsimp only
      cases he : extract_executable_from_tokens toks with
      | none =>
        dsimp only
        simp only [exceptIsError]
        exact ⟨fun _ => Or.inr (Or.inl ⟨toks, rfl, he⟩), fun _ => trivial⟩
      | some ext =>
        dsimp only
        by_cases hp : headIs ext '%' = true
        · rw [if_pos hp]
          simp only [exceptIsError]
          constructor
          · intro h
            exact absurd h (by simp)
          · rintro (h | ⟨t2, ht2, he2⟩ | ⟨t2, e2, r2, rs2, ht2, he2, hp2, hc2, hr2, hh2⟩)
            · exact absurd h (by simp)
            · injection ht2 with ht2
              subst ht2
              rw [he] at he2
              exact absurd he2 (by simp)
            · injection ht2 with ht2
              subst ht2
              rw [he] at he2
              injection he2 with he2
              subst he2
              rw [hp] at hp2
              exact absurd hp2 (by simp)
        · have hp' : headIs ext '%' = false := eq_false_of_ne_true hp
          rw [if_neg hp]
          by_cases hc : ctx.check_script_args = true
          · rw [if_pos hc]
            cases hr : resolve_executable fs ext ctx.path_env ctx.path_key with
            | none =>
              dsimp only
              simp only [exceptIsError]
              constructor
              · intro h
                exact absurd h (by simp)
              · rintro (h | ⟨t2, ht2, he2⟩ | ⟨t2, e2, r2, rs2, ht2, he2, hp2, hc2, hr2, hh2⟩)
                · exact absurd h (by simp)
                · injection ht2 with ht2
                  subst ht2
                  rw [he] at he2
                  exact absurd he2 (by simp)
                · injection ht2 with ht2
                  subst ht2
                  rw [he] at he2
                  injection he2 with he2
                  subst he2
                  rw [hr] at hr2
                  exact absurd hr2 (by simp)
            | some rexe =>
              dsimp only
              cases hh : heuristic_script_missing fs rexe toks ctx.path_key with
              | none =>
                dsimp only
                simp only [exceptIsError]
                constructor
                · intro h
                  exact absurd h (by simp)
                · rintro (h | ⟨t2, ht2, he2⟩ | ⟨t2, e2, r2, rs2, ht2, he2, hp2, hc2, hr2, hh2⟩)
                  · exact absurd h (by simp)
                  · injection ht2 with ht2
                    subst ht2
                    rw [he] at he2
                    exact absurd he2 (by simp)
                  · injection ht2 with ht2
                    subst ht2
                    rw [he] at he2
                    injection he2 with he2
                    subst he2
                    rw [hr] at hr2
                    injection hr2 with hr2
                    subst hr2
                    rw [hh] at hh2
                    exact absurd hh2 (by simp)
              | some reason =>
                dsimp only
                simp only [exceptIsError]
                exact ⟨fun _ =>
                  Or.inr (Or.inr ⟨toks, ext, rexe, reason, rfl, he, hp', hc, hr, hh⟩),
                  fun _ => trivial⟩
          · have hc' : ctx.check_script_args = false := eq_false_of_ne_true hc
            rw [if_neg hc]
            simp only [exceptIsError]
            constructor
            · intro h
              exact absurd h (by simp)
            · rintro (h | ⟨t2, ht2, he2⟩ | ⟨t2, e2, r2, rs2, ht2, he2, hp2, hc2, hr2, hh2⟩)
              · exact absurd h (by simp)
              · injection ht2 with ht2
                subst ht2
                rw [he] at he2
                exact absurd he2 (by simp)
              · exact absurd hc2 hc
  · intro toks ext htoks hext hpct
    unfold validate_exec
    rw [htoks]
    dsimp only
    rw [hext]
    dsimp only
    rw [if_pos hpct]
/-- C6, witness: on the concrete line `%f goo` the tokenizer succeeds, the
extracted token is `%f`, and the theorem's field-code clause yields
`Ok(None)`. -/
theorem C6_validate_exec_witness :
    validate_exec fsC6 (str "%f goo") ctxC6 = Except.ok none :=
  (C6_validate_exec fsC6 (str "%f goo") ctxC6).2.1
    [str "%f", str "goo"] (str "%f") (by decide) (by decide) (by decide)

theorem parseStep_eq_parseStepC (st : Bool × (Str → Option Str)) (raw : Str) :
    parseStep st raw = parseStepC st raw := by
  unfold parseStep parseStepC classifyLine
  dsimp only
  by_cases h1 : (decide (trimStr raw = []) || headIs (trimStr raw) '#'
      || headIs (trimStr raw) ';') = true
  · rw [if_pos h1, if_pos h1]
  · rw [if_neg h1, if_neg h1]
    by_cases h2 : (headIs (trimStr raw) '[' && (trimStr raw).getLast? = some ']') = true
    · rw [if_pos h2, if_pos h2]
    · rw [if_neg h2, if_neg h2]
      cases splitOnceCh '=' (trimStr raw) with
      | none =>
        obtain ⟨flag, m⟩ := st
        cases flag <;> rfl
      | some kv =>
        obtain ⟨flag, m⟩ := st
        obtain ⟨k, v⟩ := kv
        cases flag <;> rfl

theorem lastWriteWins_append (pairs : List (Str × Str)) (k v q : Str) :
    lastWriteWins (pairs ++ [(k, v)]) q =
      if k = q then some v else lastWriteWins pairs q := by
  unfold lastWriteWins
  rw [List.foldl_append]
  rfl

theorem foldl_parse_agrees (lines : List Str) :
    ∀ (flag : Bool) (m : Str → Option Str) (pairs : List (Str × Str)),
      (∀ q, m q = lastWriteWins pairs q) →
      ((lines.foldl parseStep (flag, m)).1 = (lines.foldl activeStep (flag, pairs)).1
        ∧ ∀ q, (lines.foldl parseStep (flag, m)).2 q =
            lastWriteWins ((lines.foldl activeStep (flag, pairs)).2) q) := by
  induction lines with
  | nil =>
    intro flag m pairs h
    exact ⟨rfl, h⟩
  | cons raw rest ih =>
    intro flag m pairs h
    simp only [List.foldl_cons]
    rw [parseStep_eq_parseStepC]
    unfold parseStepC activeStep
    cases classifyLine raw with
    | blank => exact ih flag m pairs h
    | header b => exact ih b m pairs h
    | other => exact ih flag m pairs h
    | kv k v =>
      cases flag with
      | false =>
        simp only [if_neg (by simp : ¬(false = true))]
        exact ih false m pairs h
      | true =>
        simp only [if_pos rfl]
        apply ih
        intro q
        rw [lastWriteWins_append]
        by_cases hq : q = k
        · subst hq
          rw [if_pos rfl, if_pos rfl]
        · rw [if_neg hq, if_neg (fun hkq => hq hkq.symm)]
          exact h q

/-- C5, counterexample.  The claim says only the first `[Desktop Entry]`
section contributes keys.  On a text whose second `[Desktop Entry]`
section defines `B=3` and overrides `A=4`, the parser nevertheless yields
`B = 3` and `A = 4`: the section flag is re-armed by every
`[Desktop Entry]` header, so later sections both add and override keys,
contradicting both "only the first one" and "lines in other sections
contribute no keys". -/
theorem C5_counterexample :
    parse_desktop_entry_section contentC5 (str "B") = some (str "3")
    ∧ parse_desktop_entry_section contentC5 (str "A") = some (str "4")
    ∧ parse_desktop_entry_section contentC5 (str "X") = none := by
  refine ⟨by decide, by decide, by decide⟩

/-- C5, amended: for every input text, the retained mapping is exactly
last-write-wins over the key-value lines of **every** `[Desktop Entry]`
region (the flag is re-armed at each recurrence of that header); lines in
differently-named sections, lines before the first header, comment lines
and blank lines contribute no keys — all captured by `desktopEntryPairs`,
which collects key-value pairs only while a `[Desktop Entry]` header is
active. -/
theorem C5_parse_desktop_entry_section (content : Str) (key : Str) :
    parse_desktop_entry_section content key =
      lastWriteWins (desktopEntryPairs content) key := by
  unfold parse_desktop_entry_section desktopEntryPairs
  exact (foldl_parse_agrees (rustLines content) false (fun _ => none) []
    (fun _ => rfl)).2 key

theorem inspect_fields_desktop_file (fs : FS) (path path_env : Str) (args : Args)
    (kv : Str → Option Str) :
    (inspect_fields fs path path_env args kv).desktop_file = path := by
  unfold inspect_fields
  dsimp only
  repeat' split
  all_goals rfl

theorem inspectCaught_desktop_file (fs : FS) (path : Str) (args : Args)
    (path_env : Str) :
    (inspectCaught fs path args path_env).desktop_file = path := by
  unfold inspectCaught inspect_one
  cases fs.readFile path with
  | error e => rfl
  | ok content =>
    dsimp only
    exact inspect_fields_desktop_file fs path path_env args
      (parse_desktop_entry_section content)

theorem inspectCaught_read_error (fs : FS) (path : Str) (args : Args)
    (path_env : Str) (e : Str) (he : fs.readFile path = Except.error e) :
    inspectCaught fs path args path_env = brokenReadFinding path e := by
  unfold inspectCaught inspect_one
  rw [he]

theorem filter_nodup_one (l : List Str) (p : Str) (hnd : l.Nodup) (hm : p ∈ l) :
    (l.filter (fun q => decide (q = p))).length = 1 := by
  induction l with
  | nil => cases hm
  | cons a t ih =>
    rw [List.nodup_cons] at hnd
    rw [List.filter_cons]
    rcases List.mem_cons.mp hm with rfl | hmt
    · rw [if_pos (by simp)]
      have hnil : t.filter (fun q => decide (q = p)) = [] :=
        List.filter_eq_nil_iff.mpr
          (fun b hb hbp => hnd.1 (by simpa [of_decide_eq_true hbp] using hb))
      simp [hnil]
    · have hap : ¬(decide (a = p) = true) := by
        simp only [decide_eq_true_eq]
        rintro rfl
        exact hnd.1 hmt
      rw [if_neg hap]
      exact ih hnd.2 hmt

theorem inspect_count (fs : FS) (files : List Str) (args : Args)
    (path_env : Str) (p : Str) :
    ((inspect_files_concurrently fs files args path_env).filter
        (fun f => decide (f.desktop_file = p))).length
      = (files.filter (fun q => decide (q = p))).length := by
  unfold inspect_files_concurrently
  rw [← List.countP_eq_length_filter, ← List.countP_eq_length_filter,
    List.countP_map]
  exact List.countP_congr
    (fun q _ => by simp [Function.comp, inspectCaught_desktop_file])

/-- C1, counterexample.  On the input list `[p, p]` (one unique path), the
pipeline returns two findings, both for `p`: the function produces one
Finding per input-list element, not per unique input path, so the claim's
universal "exactly one Finding per unique input path" fails on inputs
with duplicates. -/
theorem C1_counterexample :
    (inspect_files_concurrently fsC1 [pathC1, pathC1] argsDefault (str "")).length = 2
    ∧ ((inspect_files_concurrently fsC1 [pathC1, pathC1] argsDefault (str "")).filter
        (fun f => decide (f.desktop_file = pathC1))).length = 2
    ∧ [pathC1, pathC1].dedup.length = 1 := by
  refine ⟨by decide, by decide, by decide⟩

/-- C1, amended: the pipeline returns exactly one Finding per input-list
element (the findings' paths are exactly the input list), hence exactly
one Finding per unique input path whenever the input list is
duplicate-free — as the list produced by `collect_desktop_files` is; for
any file whose read fails, its Finding is a terminal `Broken` whose
reason carries the I/O error text, and the failure is never propagated
(the pipeline is a total function producing a Finding for every
element). -/
theorem C1_inspect_files_concurrently (fs : FS) (files : List Str) (args : Args)
    (path_env : Str) :
    ((inspect_files_concurrently fs files args path_env).map
        (fun f => f.desktop_file) = files)
    ∧ (∀ p : Str, ((inspect_files_concurrently fs files args path_env).filter
          (fun f => decide (f.desktop_file = p))).length
        = (files.filter (fun q => decide (q = p))).length)
    ∧ (files.Nodup → ∀ p ∈ files,
        ((inspect_files_concurrently fs files args path_env).filter
          (fun f => decide (f.desktop_file = p))).length = 1)
    ∧ (∀ f ∈ inspect_files_concurrently fs files args path_env, ∀ e : Str,
        fs.readFile f.desktop_file = Except.error e →
        f.status = Status.broken (str "Failed to read/parse file: " ++ e)) := by
  refine ⟨?_, fun p => inspect_count fs files args path_env p, ?_, ?_⟩
  · unfold inspect_files_concurrently
    induction files with
    | nil => rfl
    | cons a t ih => simp only [List.map_cons, inspectCaught_desktop_file, ih]
  · intro hnd p hp
    rw [inspect_count]
    exact filter_nodup_one files p hnd hp
  · intro f hf e he
    obtain ⟨p, hp, rfl⟩ := List.mem_map.mp hf
    rw [inspectCaught_desktop_file] at he
    rw [inspectCaught_read_error fs p args path_env e he]
    rfl

/-- C1, witness: on a singleton (duplicate-free) input whose read fails,
the theorem yields exactly one finding for the unique path. -/
theorem C1_witness :
    ((inspect_files_concurrently fsC1 [pathC1] argsDefault (str "")).filter
      (fun f => decide (f.desktop_file = pathC1))).length = 1 :=
  (C1_inspect_files_concurrently fsC1 [pathC1] argsDefault (str "")).2.2.1
    (by decide) pathC1 (by decide)

/-- C2: with the skip rules passed, the bus-activation case not taken, and a
`TryExec` field present, `inspect_one`'s field logic gives TryExec
priority: an unresolved `TryExec` is terminal `Broken` naming the TryExec
value (`Exec` is not consulted — the conclusion holds for every `Exec`
value); a resolved `TryExec` with no `Exec` is `Ok` with the
TryExec-resolved path; a resolved `TryExec` with an `Exec` additionally
validates `Exec` — `Ok(None)` from validation is `Broken` (inconsistent
descriptor), a validation error is `Broken` with that error's message,
and `Ok(Some p)` is `Ok` carrying the exec-resolved path `p`, not the
TryExec-resolved one. -/
theorem C2_tryexec_exec_interplay (fs : FS) (path path_env : Str) (args : Args)
    (kv : Str → Option Str) (tx : Str)
    (htx : kv (str "TryExec") = some tx)
    (hns : (!args.include_hidden
        && (parse_bool (kv (str "Hidden")) || parse_bool (kv (str "NoDisplay")))) = false)
    (hnt : ∀ t, kv (str "Type") = some t → trimStr t = str "Application")
    (hnd : (parse_bool (kv (str "DBusActivatable")) && (kv (str "Exec")).isNone) = false) :
    (validate_tryexec fs tx path_env (kv (str "Path")) = none →
      (inspect_fields fs path path_env args kv).status
        = Status.broken (str "TryExec does not resolve: " ++ tx))
    ∧ (∀ rtx, validate_tryexec fs tx path_env (kv (str "Path")) = some rtx →
        kv (str "Exec") = none →
        (inspect_fields fs path path_env args kv).status = Status.ok (some rtx))
    ∧ (∀ rtx el, validate_tryexec fs tx path_env (kv (str "Path")) = some rtx →
        kv (str "Exec") = some el →
        (validate_exec fs el ⟨path_env, kv (str "Path"), args.check_script_args⟩
            = Except.ok none →
          (inspect_fields fs path path_env args kv).status
            = Status.broken (str "Exec does not resolve (even though TryExec does)"))
        ∧ (∀ re, validate_exec fs el ⟨path_env, kv (str "Path"), args.check_script_args⟩
              = Except.ok (some re) →
            (inspect_fields fs path path_env args kv).status = Status.ok (some re))
        ∧ (∀ e, validate_exec fs el ⟨path_env, kv (str "Path"), args.check_script_args⟩
              = Except.error e →
            (inspect_fields fs path path_env args kv).status
              = Status.broken (str "Exec check failed: " ++ e))) := by
  have h2 : (match (kv (str "Type")).map trimStr with
             | some t => decide (t ≠ str "Application")
             | none => false) = false := by
    cases hT : kv (str "Type") with
    | none => rfl
    | some t =>
      have h := hnt t hT
      dsimp only [Option.map]
      rw [h]
      simp
  refine ⟨?_, ?_, ?_⟩
  · intro hv
    unfold inspect_fields
    dsimp only
    rw [hns, if_neg Bool.false_ne_true, h2, if_neg Bool.false_ne_true, hnd,
      if_neg Bool.false_ne_true, htx]
    dsimp only
    rw [hv]
  · intro rtx hv hexec
    unfold inspect_fields
    dsimp only
    rw [hns, if_neg Bool.false_ne_true, h2, if_neg Bool.false_ne_true, hnd,
      if_neg Bool.false_ne_true, htx]
    dsimp only
    rw [hv, hexec]
  · intro rtx el hv hexec
    refine ⟨?_, ?_, ?_⟩
    · intro hok
      unfold inspect_fields
      dsimp only
      rw [hns, if_neg Bool.false_ne_true, h2, if_neg Bool.false_ne_true, hnd,
        if_neg Bool.false_ne_true, htx]
      dsimp only
      rw [hv, hexec]
      dsimp only
      rw [hok]
    · intro re hok
      unfold inspect_fields
      dsimp only
      rw [hns, if_neg Bool.false_ne_true, h2, if_neg Bool.false_ne_true, hnd,
        if_neg Bool.false_ne_true, htx]
      dsimp only
      rw [hv, hexec]
      dsimp only
      rw [hok]
    · intro e herr
      unfold inspect_fields
      dsimp only
      rw [hns, if_neg Bool.false_ne_true, h2, if_neg Bool.false_ne_true, hnd,
        if_neg Bool.false_ne_true, htx]
      dsimp only
      rw [hv, hexec]
      dsimp only
      rw [herr]

/-- C2, witness: on the spec's example — `TryExec=/bin/sh` resolves and
`Exec=/nonexistent/prog %f` does not — the Finding is `Broken` with the
inconsistency reason. -/
theorem C2_witness :
    (inspect_fields fsC2 (str "/apps/a.desktop") (str "/bin") argsDefault kvC2).status
      = Status.broken (str "Exec does not resolve (even though TryExec does)") :=
  ((C2_tryexec_exec_interplay fsC2 (str "/apps/a.desktop") (str "/bin") argsDefault
      kvC2 (str "/bin/sh") (by decide) (by decide)
      (fun t h => Option.noConfusion h) (by decide)).2.2
    (str "/bin/sh") (str "/nonexistent/prog %f") (by decide) (by decide)).1 (by rfl)

/-- C10: with the skip rules passed, `DBusActivatable` parsing true and no
`Exec` field, the field logic returns `Ok` with no resolved executable —
for every filesystem and every `TryExec` value (both are universally
quantified, so the `TryExec` value is never resolved or consulted, and an
unresolvable `TryExec` on such an entry never yields `Broken`). -/
theorem C10_dbus_without_exec (fs : FS) (path path_env : Str) (args : Args)
    (kv : Str → Option Str)
    (hns : (!args.include_hidden
        && (parse_bool (kv (str "Hidden")) || parse_bool (kv (str "NoDisplay")))) = false)
    (hnt : ∀ t, kv (str "Type") = some t → trimStr t = str "Application")
    (hdb : parse_bool (kv (str "DBusActivatable")) = true)
    (hexec : kv (str "Exec") = none) :
    (inspect_fields fs path path_env args kv).status = Status.ok none := by
  have h2 : (match (kv (str "Type")).map trimStr with
             | some t => decide (t ≠ str "Application")
             | none => false) = false := by
    cases hT : kv (str "Type") with
    | none => rfl
    | some t =>
      have h := hnt t hT
      dsimp only [Option.map]
      rw [h]
      simp
  unfold inspect_fields
  dsimp only
  rw [hns, if_neg Bool.false_ne_true, h2, if_neg Bool.false_ne_true, hdb, hexec]
  simp

/-- C10, witness: a bus-activatable entry with no `Exec` and an unresolvable
`TryExec=/nonexistent`, on a filesystem where nothing exists, still gets
`Ok` with no resolved executable. -/
theorem C10_witness :
    (inspect_fields fsC1 (str "/apps/d.desktop") (str "/bin") argsDefault kvC10).status
      = Status.ok none :=
  C10_dbus_without_exec fsC1 (str "/apps/d.desktop") (str "/bin") argsDefault kvC10
    (by decide) (fun t h => Option.noConfusion h) (by decide) (by decide)

theorem lexLe_total (a : Str) : ∀ b : Str, (lexLe a b || lexLe b a) = true := by
  induction a with
  | nil => intro b; cases b <;> simp [lexLe]
  | cons x as ih =>
    intro b
    cases b with
    | nil => simp [lexLe]
    | cons y bs =>
      by_cases hxy : x = y
      · subst hxy
        simp only [lexLe, if_pos rfl]
        exact ih bs
      · have hyx : ¬(y = x) := fun h => hxy h.symm
        simp only [lexLe, if_neg hxy, if_neg hyx]
        rcases lt_or_gt_of_ne hxy with h | h
        · simp [h]
        · simp [h]

theorem lexLe_trans (a : Str) :
    ∀ b c : Str, lexLe a b = true → lexLe b c = true → lexLe a c = true := by
  induction a with
  | nil => intro b c _ _; rfl
  | cons x as ih =>
    intro b c h1 h2
    cases b with
    | nil => simp [lexLe] at h1
    | cons y bs =>
      cases c with
      | nil => simp [lexLe] at h2
      | cons z cs =>
        simp only [lexLe] at h1 h2 ⊢
        by_cases hxy : x = y
        · subst hxy
          rw [if_pos rfl] at h1
          by_cases hyz : x = z
          · subst hyz
            rw [if_pos rfl] at h2 ⊢
            exact ih bs cs h1 h2
          · rw [if_neg hyz] at h2 ⊢
            exact h2
        · rw [if_neg hxy] at h1
          have hx : x < y := of_decide_eq_true h1
          by_cases hyz : y = z
          · subst hyz
            have hne : x ≠ y := hxy
            rw [if_neg hne]
            exact decide_eq_true hx
          · rw [if_neg hyz] at h2
            have hz : y < z := of_decide_eq_true h2
            have hxz : x < z := lt_trans hx hz
            rw [if_neg (ne_of_lt hxz)]
            exact decide_eq_true hxz

theorem lexLe_antisymm (a : Str) :
    ∀ b : Str, lexLe a b = true → lexLe b a = true → a = b := by
  induction a with
  | nil =>
    intro b _ h2
    cases b with
    | nil => rfl
    | cons y bs => simp [lexLe] at h2
  | cons x as ih =>
    intro b h1 h2
    cases b with
    | nil => simp [lexLe] at h1
    | cons y bs =>
      simp only [lexLe] at h1 h2
      by_cases hxy : x = y
      · subst hxy
        rw [if_pos rfl] at h1 h2
        rw [ih bs h1 h2]
      · have hyx : ¬(y = x) := fun h => hxy h.symm
        rw [if_neg hxy] at h1
        rw [if_neg hyx] at h2
        exact absurd (lt_trans (of_decide_eq_true h1) (of_decide_eq_true h2))
          (lt_irrefl x)

theorem insertSorted_perm (x : Str) (l : List Str) :
    (insertSorted x l).Perm (x :: l) := by
  induction l with
  | nil => exact List.Perm.refl _
  | cons y ys ih =>
    simp only [insertSorted]
    by_cases h : lexLe x y = true
    · rw [if_pos h]
    · rw [if_neg h]
      exact (List.Perm.cons y ih).trans (List.Perm.swap x y ys)

theorem sortStr_perm (l : List Str) : (sortStr l).Perm l := by
  induction l with
  | nil => exact List.Perm.refl _
  | cons x xs ih =>
    exact (insertSorted_perm x (sortStr xs)).trans (List.Perm.cons x ih)

theorem pairwise_insertSorted (x : Str) (l : List Str)
    (h : List.Pairwise (fun a b => lexLe a b = true) l) :
    List.Pairwise (fun a b => lexLe a b = true) (insertSorted x l) := by
  induction l with
  | nil => exact List.pairwise_singleton _ x
  | cons y ys ih =>
    obtain ⟨hy, hys⟩ := List.pairwise_cons.mp h
    simp only [insertSorted]
    by_cases hxy : lexLe x y = true
    · rw [if_pos hxy]
      refine List.Pairwise.cons ?_ h
      intro z hz
      rcases List.mem_cons.mp hz with rfl | hzys
      · exact hxy
      · exact lexLe_trans x y z hxy (hy z hzys)
    · rw [if_neg hxy]
      have hyx : lexLe y x = true := by
        have htot := lexLe_total x y
        rw [eq_false_of_ne_true hxy] at htot
        simpa using htot
      refine List.Pairwise.cons ?_ (ih hys)
      intro z hz
      have hz2 : z ∈ x :: ys := (insertSorted_perm x ys).mem_iff.mp hz
      rcases List.mem_cons.mp hz2 with rfl | hzys
      · exact hyx
      · exact hy z hzys

theorem sortStr_sorted (l : List Str) :
    List.Pairwise (fun a b => lexLe a b = true) (sortStr l) := by
  induction l with
  | nil => exact List.Pairwise.nil
  | cons x xs ih => exact pairwise_insertSorted x (sortStr xs) ih

theorem dedupAdjacent_sublist (l : List Str) : List.Sublist (dedupAdjacent l) l := by
  induction l with
  | nil => exact List.Sublist.refl _
  | cons a tail ih =>
    cases tail with
    | nil => exact List.Sublist.refl _
    | cons b rest =>
      simp only [dedupAdjacent]
      by_cases hab : a = b
      · rw [if_pos hab]
        exact ih.cons a
      · rw [if_neg hab]
        exact ih.cons₂ a

theorem pairwise_lt_dedupAdjacent (l : List Str)
    (h : List.Pairwise (fun a b => lexLe a b = true) l) :
    List.Pairwise (fun a b => lexLe a b = true ∧ a ≠ b) (dedupAdjacent l) := by
  induction l with
  | nil => exact List.Pairwise.nil
  | cons a tail ih =>
    obtain ⟨ha, htail⟩ := List.pairwise_cons.mp h
    cases tail with
    | nil => exact List.pairwise_singleton _ a
    | cons b rest =>
      simp only [dedupAdjacent]
      by_cases hab : a = b
      · rw [if_pos hab]
        exact ih htail
      · rw [if_neg hab]
        refine List.Pairwise.cons ?_ (ih htail)
        intro z hz
        have hz2 : z ∈ b :: rest := (dedupAdjacent_sublist (b :: rest)).subset hz
        refine ⟨ha z hz2, ?_⟩
        rcases List.mem_cons.mp hz2 with rfl | hzr
        · exact hab
        · intro heq
          have hbz : lexLe b z = true := (List.pairwise_cons.mp htail).1 z hzr
          rw [← heq] at hbz
          have hab2 : lexLe a b = true := ha b (List.mem_cons_self b rest)
          exact hab (lexLe_antisymm a b hab2 hbz)

theorem entryFiles_provenance (fs : DirFS) (dir : Str)
    (rawEnts : List (Option DirEntry)) (hrd : fs.read_dir dir = some rawEnts) :
    ∀ p ∈ entryFiles dir (takeOkEntries rawEnts), fileProvenance fs p := by
  intro p hp
  obtain ⟨e, he, hfe⟩ := List.mem_filterMap.mp hp
  cases hft : e.ftype with
  | none =>
    rw [hft] at hfe
    exact absurd hfe (by simp)
  | some ft =>
    cases ft with
    | symlink =>
      rw [hft] at hfe
      exact absurd hfe (by simp)
    | dir =>
      rw [hft] at hfe
      exact absurd hfe (by simp)
    | other =>
      rw [hft] at hfe
      exact absurd hfe (by simp)
    | file =>
      rw [hft] at hfe
      dsimp only at hfe
      by_cases hx : extensionOf (joinPath dir e.name) = some (str "desktop")
      · rw [if_pos hx] at hfe
        injection hfe with hfe
        exact ⟨dir, rawEnts, e, hrd, he, hft, hx, hfe.symm⟩
      · rw [if_neg hx] at hfe
        exact absurd hfe (by simp)

theorem entrySubdirs_provenance (fs : DirFS) (dir : Str)
    (rawEnts : List (Option DirEntry)) (hrd : fs.read_dir dir = some rawEnts) :
    ∀ p ∈ entrySubdirs dir (takeOkEntries rawEnts), dirProvenance fs p := by
  intro p hp
  obtain ⟨e, he, hfe⟩ := List.mem_filterMap.mp hp
  cases hft : e.ftype with
  | none =>
    rw [hft] at hfe
    exact absurd hfe (by simp)
  | some ft =>
    cases ft with
    | symlink =>
      rw [hft] at hfe
      exact absurd hfe (by simp)
    | file =>
      rw [hft] at hfe
      exact absurd hfe (by simp)
    | other =>
      rw [hft] at hfe
      exact absurd hfe (by simp)
    | dir =>
      rw [hft] at hfe
      dsimp only at hfe
      injection hfe with hfe
      exact ⟨dir, rawEnts, e, hrd, he, hft, hfe.symm⟩

theorem walkLoop_provenance (fs : DirFS) :
    ∀ (fuel : Nat) (stack out : List Str),
      (∀ p ∈ out, fileProvenance fs p) →
      ∀ p ∈ walkLoop fs fuel stack out, fileProvenance fs p := by
  intro fuel
  induction fuel with
  | zero => intro stack out hout p hp; exact hout p hp
  | succ fuel ih =>
    intro stack out hout p hp
    cases stack with
    | nil => exact hout p hp
    | cons dir rest =>
      simp only [walkLoop] at hp
      cases hrd : fs.read_dir dir with
      | none =>
        rw [hrd] at hp
        exact ih rest out hout p hp
      | some rawEnts =>
        rw [hrd] at hp
        refine ih _ _ ?_ p hp
        intro q hq
        rcases List.mem_append.mp hq with hq | hq
        · exact hout q hq
        · exact entryFiles_provenance fs dir rawEnts hrd q hq

theorem walkVisited_provenance (fs : DirFS) (root : Str) :
    ∀ (fuel : Nat) (stack vis : List Str),
      (∀ p ∈ stack, p = root ∨ dirProvenance fs p) →
      (∀ p ∈ vis, p = root ∨ dirProvenance fs p) →
      ∀ p ∈ walkVisited fs fuel stack vis, p = root ∨ dirProvenance fs p := by
  intro fuel
  induction fuel with
  | zero => intro stack vis _ hvis p hp; exact hvis p hp
  | succ fuel ih =>
    intro stack vis hstack hvis p hp
    cases stack with
    | nil => exact hvis p hp
    | cons dir rest =>
      have hvis2 : ∀ p ∈ vis ++ [dir], p = root ∨ dirProvenance fs p := by
        intro q hq
        rcases List.mem_append.mp hq with hq | hq
        · exact hvis q hq
        · have hq2 : q = dir := List.mem_singleton.mp hq
          subst hq2
          exact hstack q (List.mem_cons_self q rest)
      have hrest : ∀ p ∈ rest, p = root ∨ dirProvenance fs p :=
        fun q hq => hstack q (List.mem_cons_of_mem dir hq)
      simp only [walkVisited] at hp
      cases hrd : fs.read_dir dir with
      | none =>
        rw [hrd] at hp
        exact ih rest (vis ++ [dir]) hrest hvis2 p hp
      | some rawEnts =>
        rw [hrd] at hp
        refine ih _ _ ?_ hvis2 p hp
        intro q hq
        rcases List.mem_append.mp hq with hq | hq
        · exact Or.inr (entrySubdirs_provenance fs dir rawEnts hrd q
            (List.mem_reverse.mp hq))
        · exact hrest q hq

theorem foldl_walk_provenance (fs : DirFS) (fuel : Nat) :
    ∀ (roots acc : List Str),
      (∀ p ∈ acc, fileProvenance fs p) →
      ∀ p ∈ roots.foldl (fun acc root => walkLoop fs fuel [root] acc) acc,
        fileProvenance fs p := by
  intro roots
  induction roots with
  | nil => intro acc hacc p hp; exact hacc p hp
  | cons r rs ih =>
    intro acc hacc p hp
    simp only [List.foldl_cons] at hp
    exact ih _ (walkLoop_provenance fs fuel [r] acc hacc) p hp

/-- C7: for every directory oracle, fuel and root list, the collected
sequence is strictly sorted (hence duplicate-free); every collected path
comes from a regular-file entry with extension exactly `desktop` (so
symlink entries are never collected); a directory whose listing fails is
skipped and the walk continues with the rest of the stack; and every
directory the walk ever lists is a root or the join of a dir-typed entry
(so symlink entries are never traversed). -/
theorem C7_collect_desktop_files (fs : DirFS) (fuel : Nat) (roots : List Str) :
    List.Pairwise (fun a b => lexLe a b = true ∧ a ≠ b)
        (collect_desktop_files fs fuel roots)
    ∧ (∀ p ∈ collect_desktop_files fs fuel roots, fileProvenance fs p)
    ∧ (∀ dir stack out, fs.read_dir dir = none →
        walkLoop fs (fuel + 1) (dir :: stack) out = walkLoop fs fuel stack out)
    ∧ (∀ root, ∀ p ∈ walkVisited fs fuel [root] [],
        p = root ∨ dirProvenance fs p) := by
  refine ⟨?_, ?_, ?_, ?_⟩
  · exact pairwise_lt_dedupAdjacent _ (sortStr_sorted _)
  · intro p hp
    have hp2 : p ∈ sortStr (roots.foldl
        (fun acc root => walkLoop fs fuel [root] acc) []) :=
      (dedupAdjacent_sublist _).subset hp
    have hp3 := (sortStr_perm _).mem_iff.mp hp2
    exact foldl_walk_provenance fs fuel roots [] (fun q hq => absurd hq
      (List.not_mem_nil q)) p hp3
  · intro dir stack out h
    simp only [walkLoop, h]
  · intro root p hp
    refine walkVisited_provenance fs root fuel [root] [] ?_ ?_ p hp
    · intro q hq
      exact Or.inl (List.mem_singleton.mp hq)
    · intro q hq
      exact absurd hq (List.not_mem_nil q)

/-- C7, witness: on the concrete oracle `fsC7`, the collected path
`/apps/sub/b.desktop` (which lies behind one directory descent) has
file provenance, and the traversed directory `/apps/sub` is dir-typed
(or the root). -/
theorem C7_collect_witness :
    fileProvenance fsC7 (str "/apps/sub/b.desktop")
    ∧ ((str "/apps/sub") = (str "/apps") ∨ dirProvenance fsC7 (str "/apps/sub")) :=
  ⟨(C7_collect_desktop_files fsC7 5 [str "/apps"]).2.1 _ (by decide),
   (C7_collect_desktop_files fsC7 5 [str "/apps"]).2.2.2 (str "/apps") _ (by decide)⟩

/-- C9: in every state reachable by the gated pool with job count
`effectiveJobs args cpus`, the number of in-flight inspections never
exceeds that job count; moreover free permits plus in-flight inspections
always equal the job count (each inspection holds exactly one slot from
before its read until after its Finding, on every exit path), task counts
are conserved, and a run that has drained its pending and running tasks
has produced exactly one Finding per input task. -/
theorem C9_concurrency_gate (args : Args) (cpus total : Nat) (s : GateState)
    (h : GateReachable (effectiveJobs args cpus) total s) :
    s.running ≤ effectiveJobs args cpus
    ∧ s.permits + s.running = effectiveJobs args cpus
    ∧ s.pending + s.running + s.done = total
    ∧ (s.pending = 0 → s.running = 0 → s.done = total) := by
  induction h with
  | init =>
    refine ⟨Nat.zero_le _, by simp, by simp, ?_⟩
    intro h1 _
    dsimp only at h1 ⊢
    omega
  | step hreach hstep ih =>
    obtain ⟨ih1, ih2, ih3, _⟩ := ih
    cases hstep with
    | start hp hm =>
      refine ⟨?_, ?_, ?_, ?_⟩ <;> dsimp only <;> omega
    | finish hr =>
      refine ⟨?_, ?_, ?_, ?_⟩ <;> dsimp only <;> omega

/-- C9, witness: with one configured job and two files, after admitting the
first task one inspection is in flight, within the bound. -/
theorem C9_gate_witness :
    (⟨1, 1, 0, 0⟩ : GateState).running ≤ effectiveJobs ⟨false, false, some 1⟩ 4 :=
  (C9_concurrency_gate ⟨false, false, some 1⟩ 4 2 ⟨1, 1, 0, 0⟩
    (GateReachable.step GateReachable.init
      (GateStep.start ⟨2, 0, 0, 1⟩ (by decide) (by decide)))).1

end DScout
